import Mathlib

/-!
Verification of the conversation-window, retry, session-lifecycle, transcript
and CSV-export behaviour of the Streamlit customer-support chatbot in
`src/app.py`, against its natural-language specification.

The script is embedded shallowly: `st.session_state` becomes an explicit
record of optional fields (a key may be absent), the uuid4 supply becomes a
counter environment, the remote Gemini call becomes an opaque function from
attempt number to outcome, and each block of the script (initialisation,
reset, the chat-input handler, the CSV export) becomes a pure function.
-/

namespace InfoPage

/-- One entry of the Gemini-format message list (`types.Content` with one
text part). -/
structure Content where
  role : String
  text : String
deriving Repr, DecidableEq

/-- One entry of `st.session_state.history`: the timestamp from `time.time()`
(modelled as a natural), the speaker role and the text. -/
structure HistEntry where
  timestamp : Nat
  role : String
  text : String
deriving Repr, DecidableEq

/-- The fixed system prompt `SYSTEM_PROMPT` of `app.py` (customer-service
instructions, verbatim). -/
def SYSTEM_PROMPT : String :=
  "\n당신은 쇼핑몰 고객 서비스 AI 챗봇입니다.\n\n1.  **공감 및 말투**: 사용자는 쇼핑몰 구매 과정에서 겪은 불편/불만을 언급합니다. 이들의 불편함에 깊이 공감하며, 매우 정중하고 친절한 말투로 응답해야 합니다.\n2.  **정보 수집 및 전달 안내**: 사용자가 언급한 불편 사항을 구체적으로 정리하여 (무엇이, 언제, 어디서, 어떻게 발생했는지) 수집하세요. 수집한 내용을 바탕으로 \"이 내용을 고객 응대 담당자에게 전달하여 구체적인 해결 방안을 모색하겠다\"는 취지로 명확히 안내해야 합니다.\n3.  **연락처 요청**: 담당자 확인 후 회신을 위해 대화의 마지막 부분에는 반드시 **이메일 주소**를 요청해야 합니다.\n4.  **연락 거부 처리**: 만일 사용자가 이메일 주소 제공을 거부할 경우, 다음 문장만을 사용하여 정중하게 안내합니다: \"죄송하지만, 연락처 정보를 받지 못하여 담당자의 검토 내용을 받으실 수 없어요. 불편을 드려 다시 한번 사과드립니다.\"\n"

/-- The instruction entry placed at index 0 of the message list
(`types.Content(role="system", parts=[... SYSTEM_PROMPT])`). -/
def systemContent : Content := ⟨"system", SYSTEM_PROMPT⟩

/-- `st.session_state` as the script sees it: every key may be absent
(`none`), matching the `if key not in st.session_state` guards. -/
structure SessionState where
  session_id : Option Nat
  messages : Option (List Content)
  history : Option (List HistEntry)
  model_name : Option String
  log_to_csv : Option Bool
deriving Repr, DecidableEq

/-- A brand-new `st.session_state` with no key set. -/
def emptySession : SessionState := ⟨none, none, none, none, none⟩

/-- The world outside the script: a supply of fresh `uuid.uuid4()` values,
modelled as a counter (every id issued so far is below `next_id`). -/
structure Env where
  next_id : Nat
deriving Repr, DecidableEq

/-- The default model name set by `initialize_session_state`. -/
def default_model_name : String := "gemini-2.5-flash"

/-- The model names offered by the sidebar selectbox. -/
def available_models : List String := ["gemini-2.5-flash", "gemini-2.5-pro"]

/-- `initialize_session_state` (lines 40-54): each absent key receives its
initial value, present keys are untouched; an absent `session_id` draws a
fresh uuid from the supply. -/
def initialize_session_state (s : SessionState) (env : Env) : SessionState × Env :=
  let idStep : Nat × Env :=
    match s.session_id with
    | some v => (v, env)
    | none => (env.next_id, { env with next_id := env.next_id + 1 })
  (⟨some idStep.1,
    some (s.messages.getD [systemContent]),
    some (s.history.getD []),
    some (s.model_name.getD default_model_name),
    some (s.log_to_csv.getD false)⟩,
   idStep.2)

/-- `reset_conversation` (lines 57-62): delete the keys `messages`,
`history` and `session_id`, then re-run `initialize_session_state`.
The keys `model_name` and `log_to_csv` are not deleted. -/
def reset_conversation (s : SessionState) (env : Env) : SessionState × Env :=
  initialize_session_state
    { s with messages := none, history := none, session_id := none } env

/-- The request payload built before each call (lines 148-152): if the
stored list holds more than 7 entries, keep `messages[0]` (the system
prompt) plus `messages[-6:]`; otherwise send the whole list. -/
def api_messages (messages : List Content) : List Content :=
  if messages.length > 7 then
    messages.take 1 ++ messages.drop (messages.length - 6)
  else
    messages

/-- Outcome of one `client.models.generate_content` call: a reply text, an
`APIError` carrying its status code, or an exception outside the SDK's
error taxonomy. -/
inductive APIResult where
  | ok (text : String)
  | apiError (status_code : Nat)
  | exn
deriving Repr, DecidableEq

/-- `max_retries` (line 158). -/
def max_retries : Nat := 3

/-- Fallback text when every retry hit the 429 rate limit (line 179). -/
def overload_fallback : String :=
  "서비스 이용량이 많아 지금은 응답이 어렵습니다. 잠시 후 다시 시도해 주시면 감사하겠습니다."

/-- Fallback text for a non-429 `APIError` (line 183). -/
def service_error_fallback : String :=
  "죄송합니다. 서비스 처리 중 오류가 발생했습니다. 잠시 후 다시 시도해 주세요."

/-- Fallback text for an exception outside the API error taxonomy
(line 188). -/
def unexpected_fallback : String :=
  "죄송합니다. 예상치 못한 문제로 응답이 어렵습니다."

/-- What the retry loop produced: the final `response_text`, the
`time.sleep` durations performed (in order), and how many
`generate_content` attempts were made. -/
structure CallResult where
  response_text : String
  delays : List Nat
  calls : Nat
deriving Repr, DecidableEq

/-- The body of `for attempt in range(max_retries)` (lines 160-189), run
from attempt number `attempt` with `fuel` loop iterations left
(`max_retries - attempt`). `service k` is what the remote call returns or
raises on attempt `k`. A 429 with a later attempt available sleeps
`1 * (attempt + 1)` and continues; a final 429 breaks with the overload
fallback; any other `APIError` breaks with the generic fallback; any other
exception breaks with the distinct unexpected-error fallback. -/
def retryFrom (service : Nat → APIResult) : Nat → Nat → CallResult
  | _, 0 => ⟨"", [], 0⟩
  | attempt, fuel + 1 =>
    match service attempt with
    | .ok t => ⟨t, [], 1⟩
    | .apiError code =>
      if code = 429 ∧ attempt < max_retries - 1 then
        let r := retryFrom service (attempt + 1) fuel
        ⟨r.response_text, 1 * (attempt + 1) :: r.delays, r.calls + 1⟩
      else if code = 429 then
        ⟨overload_fallback, [], 1⟩
      else
        ⟨service_error_fallback, [], 1⟩
    | .exn => ⟨unexpected_fallback, [], 1⟩

/-- The whole retry loop: `response_text = ""`, then up to `max_retries`
attempts starting at attempt 0. Every branch of the loop ends in a plain
text value: no error is re-raised to the caller. -/
def send (service : Nat → APIResult) : CallResult :=
  retryFrom service 0 max_retries

/-- What the remote call actually raises or returns, given the credential:
with the key absent (line 118's `if not API_KEY` shows an error but does
not stop the script), the name `client` is never bound, so the call inside
the `try` raises a `NameError` — an exception outside the API taxonomy. -/
def effective_service (apiKey : Option String) (service : Nat → APIResult) :
    Nat → APIResult :=
  match apiKey with
  | none => fun _ => .exn
  | some _ => service

/-- The `if prompt := st.chat_input(...)` block (lines 134-205): append the
user turn to both `history` and `messages`, build the payload, run the
retry loop, and append the model turn to both lists if and only if the
resulting `response_text` is non-empty. `t1` and `t2` are the two
`time.time()` readings. The `log_to_csv` flag only controls a toast
notification and changes no stored list. -/
def handle_chat_input (apiKey : Option String) (service : Nat → APIResult)
    (prompt : String) (t1 t2 : Nat) (s : SessionState) : SessionState :=
  let history := s.history.getD [] ++ [⟨t1, "user", prompt⟩]
  let messages := s.messages.getD [] ++ [⟨"user", prompt⟩]
  let r := send (effective_service apiKey service)
  let history :=
    if r.response_text ≠ "" then history ++ [⟨t2, "model", r.response_text⟩]
    else history
  let messages :=
    if r.response_text ≠ "" then messages ++ [⟨"model", r.response_text⟩]
    else messages
  { s with history := some history, messages := some messages }

/-! ## CSV export (`convert_history_to_csv`, lines 65-78)

`csv.DictWriter` with the default dialect: delimiter `,`, quote char `"`,
line terminator `"\r\n"`, `QUOTE_MINIMAL` quoting (a field is quoted
exactly when it holds the delimiter, the quote char or a line-terminator
character; an embedded quote char is doubled). Fields are modelled as
character lists. -/

/-- `QUOTE_MINIMAL`: does this field need quoting? True exactly when it
holds the delimiter, the quote char, or a `\r\n` character. -/
def needsQuote (s : List Char) : Bool :=
  s.any fun c => c = ',' || c = '"' || c = '\r' || c = '\n'

/-- Double every embedded quote char, as the csv writer does inside a
quoted field. -/
def escapeQuotes : List Char → List Char
  | [] => []
  | c :: cs =>
    if c = '"' then '"' :: '"' :: escapeQuotes cs else c :: escapeQuotes cs

/-- Render one field under the `QUOTE_MINIMAL` policy. -/
def renderField (s : List Char) : List Char :=
  if needsQuote s then '"' :: (escapeQuotes s ++ ['"']) else s

/-- Render one row: the fields joined by the delimiter. -/
def renderRow : List (List Char) → List Char
  | [] => []
  | [f] => renderField f
  | f :: fs => renderField f ++ ',' :: renderRow fs

/-- Render the whole table: each row followed by the `\r\n` terminator, as
`writer.writerow` emits it. -/
def renderTable (rows : List (List (List Char))) : List Char :=
  (rows.map fun r => renderRow r ++ ['\r', '\n']).flatten

/-- The header row `writeheader()` emits, in the fixed field order. -/
def headerFields : List (List Char) :=
  ["SessionID".data, "Timestamp".data, "Role".data, "Text".data]

/-- One history entry as the row `writer.writerow` receives: the current
session id, then the entry's timestamp, role and text, rendered to text. -/
def entryFields (session_id : String) (e : HistEntry) : List (List Char) :=
  [session_id.data, (toString e.timestamp).data, e.role.data, e.text.data]

/-- `convert_history_to_csv`: the header row followed by one row per
history entry, every row carrying the current session id. -/
def convert_history_to_csv (session_id : String) (history : List HistEntry) :
    List Char :=
  renderTable (headerFields :: history.map (entryFields session_id))

/-! ### Decoding the exported format

Modelled from the spec: the source ships no `decode()`; §4.3 specifies the
format (fixed column order, quote-on-demand escaping, doubled embedded
quotes) and the round-trip property "decoding the exported format
reconstructs the same ordered list of {session, timestamp, role, text}
tuples". The decoder below is the standard reader of that delimited
format. -/

/-- Modelled from the spec: read the body of a quoted field up to its
closing quote; a doubled quote char stands for one embedded quote.
Returns the field content and the input after the closing quote, or
`none` for an unterminated field. -/
def parseQuoted : List Char → Option (List Char × List Char)
  | [] => none
  | c :: cs =>
    if c = '"' then
      match cs with
      | [] => some ([], [])
      | c2 :: cs2 =>
        if c2 = '"' then (parseQuoted cs2).map fun fr => ('"' :: fr.1, fr.2)
        else some ([], c2 :: cs2)
    else (parseQuoted cs).map fun fr => (c :: fr.1, fr.2)

/-- Modelled from the spec: read an unquoted field, which extends to the
next delimiter or row terminator. -/
def parseUnquoted : List Char → List Char × List Char
  | [] => ([], [])
  | c :: cs =>
    if c = ',' ∨ c = '\r' then ([], c :: cs)
    else
      let fr := parseUnquoted cs
      (c :: fr.1, fr.2)

/-- Modelled from the spec: read one field, quoted or not. -/
def parseField : List Char → Option (List Char × List Char)
  | [] => some ([], [])
  | c :: cs =>
    if c = '"' then parseQuoted cs else some (parseUnquoted (c :: cs))

/-- Modelled from the spec: read one row — fields separated by the
delimiter, closed by the `\r\n` terminator. `fuel` bounds the number of
fields. -/
def parseRowAux : Nat → List Char → Option (List (List Char) × List Char)
  | 0, _ => none
  | fuel + 1, cs =>
    match parseField cs with
    | none => none
    | some (f, rest) =>
      match rest with
      | [] => none
      | c :: r =>
        if c = ',' then
          match parseRowAux fuel r with
          | some (fs, r') => some (f :: fs, r')
          | none => none
        else if c = '\r' then
          match r with
          | [] => none
          | c2 :: r' => if c2 = '\n' then some ([f], r') else none
        else none

/-- Modelled from the spec: read all rows until the input is exhausted.
`fuel` bounds the number of rows. -/
def parseTableAux : Nat → List Char → Option (List (List (List Char)))
  | _, [] => some []
  | 0, _ => none
  | fuel + 1, cs =>
    match parseRowAux cs.length cs with
    | some (row, rest) =>
      match parseTableAux fuel rest with
      | some rows => some (row :: rows)
      | none => none
    | none => none

/-- Modelled from the spec: the table of the exported record. -/
def parseTable (cs : List Char) : Option (List (List (List Char))) :=
  parseTableAux cs.length cs

/-- Modelled from the spec: one decoded row as a
{session, timestamp, role, text} tuple; a row of any other width is
malformed. -/
def rowTuple (r : List (List Char)) :
    Option (String × String × String × String) :=
  match r with
  | [sid, ts, role, text] => some (⟨sid⟩, ⟨ts⟩, ⟨role⟩, ⟨text⟩)
  | _ => none

/-- Modelled from the spec: drop the header row and read each remaining
row as a {session, timestamp, role, text} tuple. -/
def decodeTranscript (cs : List Char) :
    Option (List (String × String × String × String)) :=
  match parseTable cs with
  | some (_ :: rows) => rows.mapM rowTuple
  | _ => none

/-! ## Mock services used by the witnesses -/

/-- A mock remote service: rate-limited on attempts 0 and 1, success on
attempt 2. -/
def mockRateLimitTwice : Nat → APIResult := fun k =>
  if k < 2 then .apiError 429 else .ok "접수되었습니다"

/-- A mock remote service: rate-limited on every attempt. -/
def mockAlwaysRateLimited : Nat → APIResult := fun _ => .apiError 429

/-- A mock remote service: a non-429 `APIError` on every attempt. -/
def mockServiceError : Nat → APIResult := fun _ => .apiError 500

/-- A mock remote service that always answers. -/
def mockOkService : Nat → APIResult := fun _ => .ok "불편을 드려 죄송합니다."

/-! ## C1: the context window -/

/-- C1: the request payload equals the instruction entry followed by the
whole conversation when it has at most 6 turns, and by exactly the last 6
turns when it has more; a 10-turn conversation gives the 7-entry payload
`instruction :: turns 5..10`, order preserved; and building the payload
does not mutate the stored history — after a submission the previously
stored messages survive unchanged as a prefix of the store. -/
theorem payload_window (instr : Content) (turns : List Content) :
    (turns.length ≤ 6 → api_messages (instr :: turns) = instr :: turns) ∧
    (turns.length > 6 →
      api_messages (instr :: turns) = instr :: turns.drop (turns.length - 6) ∧
      (api_messages (instr :: turns)).length = 7) ∧
    (turns.length = 10 →
      api_messages (instr :: turns) = instr :: turns.drop 4 ∧
      (api_messages (instr :: turns)).length = 7) ∧
    (∀ apiKey service prompt t1 t2 s,
      ((handle_chat_input apiKey service prompt t1 t2 s).messages.getD []).take
          (s.messages.getD []).length = s.messages.getD []) := by
  have hgt : ∀ h : turns.length > 6,
      api_messages (instr :: turns) = instr :: turns.drop (turns.length - 6) ∧
      (api_messages (instr :: turns)).length = 7 := by
    intro h
    have hlen : (instr :: turns).length > 7 := by simp; omega
    have hidx : (instr :: turns).length - 6 = (turns.length - 6) + 1 := by
      simp; omega
    constructor
    · rw [api_messages, if_pos hlen, hidx]
      simp
    · rw [api_messages, if_pos hlen, hidx]
      simp
      omega
  refine ⟨?_, hgt, ?_, ?_⟩
  · intro h
    have hlen : ¬ (instr :: turns).length > 7 := by simp; omega
    rw [api_messages, if_neg hlen]
  · intro h
    have h6 : turns.length > 6 := by omega
    have := hgt h6
    rw [h] at this
    simpa using this
  · intro apiKey service prompt t1 t2 s
    simp only [handle_chat_input, Option.getD_some]
    split <;> (try simp only [List.append_assoc]) <;> exact List.take_left _ _

/-! ## C2-C4: the retry loop -/

/-- C2: when the service is rate-limited on attempts 1 and 2 and succeeds
on attempt 3, the send operation returns the success text after exactly two
sleeps of linearly increasing duration (`1 * 1` then `1 * 2` units), and
the rate-limit signal is absorbed by the loop — the caller receives a plain
text result, never an error. -/
theorem rate_limit_retries_then_succeeds (service : Nat → APIResult) (t : String)
    (h0 : service 0 = .apiError 429) (h1 : service 1 = .apiError 429)
    (h2 : service 2 = .ok t) :
    send service = ⟨t, [1 * 1, 1 * 2], 3⟩ := by
  simp [send, max_retries, retryFrom, h0, h1, h2]

/-- Witness for C2 at the mock service of its scenario. -/
theorem rate_limit_retries_then_succeeds_witness :
    send mockRateLimitTwice = ⟨"접수되었습니다", [1 * 1, 1 * 2], 3⟩ :=
  rate_limit_retries_then_succeeds mockRateLimitTwice "접수되었습니다" rfl rfl rfl

/-- C3: when the service is rate-limited on all 3 attempts, the send
operation returns the fixed overload-fallback string (after the two
intermediate sleeps); every branch of the loop ends in a text value, so no
exception reaches the caller. -/
theorem rate_limit_exhausted_falls_back (service : Nat → APIResult)
    (h0 : service 0 = .apiError 429) (h1 : service 1 = .apiError 429)
    (h2 : service 2 = .apiError 429) :
    send service = ⟨overload_fallback, [1 * 1, 1 * 2], 3⟩ := by
  simp [send, max_retries, retryFrom, h0, h1, h2]

/-- Witness for C3 at the always-rate-limited mock service. -/
theorem rate_limit_exhausted_falls_back_witness :
    send mockAlwaysRateLimited = ⟨overload_fallback, [1 * 1, 1 * 2], 3⟩ :=
  rate_limit_exhausted_falls_back mockAlwaysRateLimited rfl rfl rfl

/-- C4: a non-rate-limit failure aborts the loop at once — after `k`
rate-limited attempts (any `k < 3`, in particular `k = 0`: a failure on the
first attempt retries zero times), a non-429 `APIError` returns the fixed
generic apology and an error outside the API taxonomy returns the distinct
unexpected-error apology, each with no further attempt (`k + 1` calls in
total) and no exception escaping: the operation yields text. -/
theorem non_rate_limit_aborts (service : Nat → APIResult) (k code : Nat)
    (hk : k < max_retries) (hpre : ∀ j, j < k → service j = .apiError 429) :
    (service k = .apiError code → code ≠ 429 →
      send service =
        ⟨service_error_fallback, (List.range k).map (fun j => 1 * (j + 1)), k + 1⟩) ∧
    (service k = .exn →
      send service =
        ⟨unexpected_fallback, (List.range k).map (fun j => 1 * (j + 1)), k + 1⟩) := by
  rw [max_retries] at hk
  have hcase : k = 0 ∨ k = 1 ∨ k = 2 := by omega
  rcases hcase with h | h | h <;> subst h
  · constructor
    · intro hs hne
      simp [send, max_retries, retryFrom, hs, hne]
    · intro hs
      simp [send, max_retries, retryFrom, hs]
  · have h0 := hpre 0 (by omega)
    constructor
    · intro hs hne
      simp [send, max_retries, retryFrom, h0, hs, hne]
      all_goals decide
    · intro hs
      simp [send, max_retries, retryFrom, h0, hs]
      all_goals decide
  · have h0 := hpre 0 (by omega)
    have h1 := hpre 1 (by omega)
    constructor
    · intro hs hne
      simp [send, max_retries, retryFrom, h0, h1, hs, hne]
      all_goals decide
    · intro hs
      simp [send, max_retries, retryFrom, h0, h1, hs]
      all_goals decide

/-- Witness for C4 at the mock service failing with a 500 on its first
attempt. -/
theorem non_rate_limit_aborts_witness :
    (mockServiceError 0 = .apiError 500 → (500 : Nat) ≠ 429 →
      send mockServiceError =
        ⟨service_error_fallback, (List.range 0).map (fun j => 1 * (j + 1)), 0 + 1⟩) ∧
    (mockServiceError 0 = .exn →
      send mockServiceError =
        ⟨unexpected_fallback, (List.range 0).map (fun j => 1 * (j + 1)), 0 + 1⟩) :=
  non_rate_limit_aborts mockServiceError 0 500 (by rw [max_retries]; omega)
    (fun j hj => absurd hj (Nat.not_lt_zero j))

/-! ## The session state machine -/

/-- A `history` entry mirrored into Gemini `Content` form: same role, same
text. -/
def toContent (e : HistEntry) : Content := ⟨e.role, e.text⟩

/-- The states the script can reach, starting from an empty
`st.session_state`: every rerun starts with `initialize_session_state`;
the sidebar can select a model or toggle logging; the reset button runs
`reset_conversation`; a chat submission runs the chat-input block. -/
inductive Reachable : SessionState → Env → Prop where
  | start (env : Env) :
      Reachable (initialize_session_state emptySession env).1
        (initialize_session_state emptySession env).2
  | rerun {s : SessionState} {env : Env} : Reachable s env →
      Reachable (initialize_session_state s env).1
        (initialize_session_state s env).2
  | select_model {s : SessionState} {env : Env} (m : String)
      (hm : m ∈ available_models) : Reachable s env →
      Reachable { s with model_name := some m } env
  | toggle_log {s : SessionState} {env : Env} (b : Bool) : Reachable s env →
      Reachable { s with log_to_csv := some b } env
  | reset {s : SessionState} {env : Env} : Reachable s env →
      Reachable (reset_conversation s env).1 (reset_conversation s env).2
  | chat {s : SessionState} {env : Env} (apiKey : Option String)
      (service : Nat → APIResult) (prompt : String) (t1 t2 : Nat) :
      Reachable s env →
      Reachable (handle_chat_input apiKey service prompt t1 t2 s) env

/-- Shape invariant of every reachable state: the two stored lists exist
and mirror each other (messages = instruction entry followed by the mirror
of history), the session id exists and was drawn from the uuid supply, and
the model name and logging flag exist. -/
def GoodState (s : SessionState) (env : Env) : Prop :=
  (∃ hist, s.history = some hist ∧
    s.messages = some (systemContent :: hist.map toContent)) ∧
  (∃ i, s.session_id = some i ∧ i < env.next_id) ∧
  (∃ m, s.model_name = some m) ∧
  (∃ b, s.log_to_csv = some b)

theorem reachable_good {s : SessionState} {env : Env} (h : Reachable s env) :
    GoodState s env := by
  induction h with
  | start env =>
    exact ⟨⟨[], rfl, rfl⟩, ⟨env.next_id, rfl, Nat.lt_succ_self _⟩,
      ⟨_, rfl⟩, ⟨_, rfl⟩⟩
  | rerun hr ih =>
    obtain ⟨⟨hist, hh, hm⟩, ⟨i, hi, hlt⟩, ⟨mn, hmn⟩, ⟨b, hb⟩⟩ := ih
    refine ⟨⟨hist, ?_, ?_⟩, ⟨i, ?_, ?_⟩, ⟨mn, ?_⟩, ⟨b, ?_⟩⟩ <;>
      simp [initialize_session_state, hi, hh, hm, hmn, hb, hlt]
  | select_model m hm hr ih =>
    obtain ⟨⟨hist, hh, hm2⟩, ⟨i, hi, hlt⟩, _, ⟨b, hb⟩⟩ := ih
    exact ⟨⟨hist, hh, hm2⟩, ⟨i, hi, hlt⟩, ⟨m, rfl⟩, ⟨b, hb⟩⟩
  | toggle_log b hr ih =>
    obtain ⟨⟨hist, hh, hm2⟩, ⟨i, hi, hlt⟩, ⟨mn, hmn⟩, _⟩ := ih
    exact ⟨⟨hist, hh, hm2⟩, ⟨i, hi, hlt⟩, ⟨mn, hmn⟩, ⟨b, rfl⟩⟩
  | reset hr ih =>
    rename_i s' env'
    obtain ⟨_, _, ⟨mn, hmn⟩, ⟨b, hb⟩⟩ := ih
    refine ⟨⟨[], ?_, ?_⟩, ⟨env'.next_id, ?_, ?_⟩, ⟨mn, ?_⟩, ⟨b, ?_⟩⟩ <;>
      simp [reset_conversation, initialize_session_state, hmn, hb]
  | chat apiKey service prompt t1 t2 hr ih =>
    obtain ⟨⟨hist, hh, hm⟩, ⟨i, hi, hlt⟩, ⟨mn, hmn⟩, ⟨b, hb⟩⟩ := ih
    refine ⟨⟨hist ++ ⟨t1, "user", prompt⟩ ::
        (if (send (effective_service apiKey service)).response_text ≠ ""
         then [⟨t2, "model", (send (effective_service apiKey service)).response_text⟩]
         else []), ?_, ?_⟩, ⟨i, hi, hlt⟩, ⟨mn, hmn⟩, ⟨b, hb⟩⟩ <;>
      · simp only [handle_chat_input, hh, hm, Option.getD_some]
        split <;> simp [toContent]

/-- The state after the very first script run on an empty session, with
the uuid supply starting at 0. -/
def startState : SessionState := (initialize_session_state emptySession ⟨0⟩).1

/-- The uuid supply after the very first script run. -/
def startEnv : Env := (initialize_session_state emptySession ⟨0⟩).2

/-! ## C7: the instruction entry survives truncation -/

/-- The payload always starts with the stored list's first element. -/
theorem api_messages_head (c : Content) (rest : List Content) :
    (api_messages (c :: rest)).head? = some c := by
  rw [api_messages]
  split
  · simp
  · rfl

/-- C7: in every reachable state, the instruction entry is the first
element of the payload presented to the remote call, and it is a member of
every payload — truncation never evicts it, no matter how many turns have
accumulated. -/
theorem instruction_never_evicted (s : SessionState) (env : Env)
    (h : Reachable s env) (msgs : List Content)
    (hm : s.messages = some msgs) :
    (api_messages msgs).head? = some systemContent ∧
    systemContent ∈ api_messages msgs := by
  obtain ⟨⟨hist, hh, hmsg⟩, _⟩ := reachable_good h
  rw [hm] at hmsg
  obtain rfl : msgs = systemContent :: hist.map toContent :=
    Option.some.inj hmsg
  refine ⟨api_messages_head _ _, ?_⟩
  rw [api_messages]
  split
  · simp
  · exact List.mem_cons_self _ _

/-- Witness for C7 at the freshly initialised state. -/
theorem instruction_never_evicted_witness :
    (api_messages [systemContent]).head? = some systemContent ∧
    systemContent ∈ api_messages [systemContent] :=
  instruction_never_evicted startState startEnv (Reachable.start ⟨0⟩)
    [systemContent] rfl

/-! ## C5: submission with a missing credential -/

/-- C5 (what the code actually does at the failing input): with the API
credential missing, a submission is still processed. Line 118 shows an
error but does not stop the script, so the chat input stays active; the
user turn is appended to both stored lists, the call site raises a
`NameError` (the name `client` was never bound), and the generic
`except Exception` branch appends the unexpected-error fallback as a model
turn. The spec instead requires the flow to halt before any remote call
with no conversation turn created. -/
theorem missing_credential_still_processes :
    (handle_chat_input none mockOkService "hello" 0 1 startState).history =
      some [⟨0, "user", "hello"⟩, ⟨1, "model", unexpected_fallback⟩] ∧
    (handle_chat_input none mockOkService "hello" 0 1 startState).messages =
      some [systemContent, ⟨"user", "hello"⟩, ⟨"model", unexpected_fallback⟩] := by
  constructor <;> rfl

/-! ## C6: reset -/

/-- C6 counterexample: `reset_conversation` does not re-apply the default
model name — resetting a session whose selected model is
`"gemini-2.5-pro"` keeps `"gemini-2.5-pro"`, because `model_name` is not
among the deleted keys and `initialize_session_state` only fills absent
keys. -/
theorem reset_model_name_cex :
    ((reset_conversation { startState with model_name := some "gemini-2.5-pro" }
        startEnv).1).model_name ≠ some default_model_name := by
  decide

/-- C6 (amended): after `reset()` the session id read back is fresh and
differs from the pre-reset id, the transcript length is 0, the
conversation is discarded back to the instruction-only state, and no
partial state (such as a new id with old history) is observable; however
`model_name` (and the logging flag) retain their pre-reset values — the
default model name is not re-applied. -/
theorem reset_state (s : SessionState) (env : Env) (h : Reachable s env)
    (i : Nat) (hi : s.session_id = some i) :
    (reset_conversation s env).1.session_id = some env.next_id ∧
    env.next_id ≠ i ∧
    (reset_conversation s env).1.history = some [] ∧
    (reset_conversation s env).1.messages = some [systemContent] ∧
    (reset_conversation s env).1.model_name = s.model_name ∧
    (reset_conversation s env).1.log_to_csv = s.log_to_csv := by
  obtain ⟨_, ⟨i', hi', hlt⟩, ⟨mn, hmn⟩, ⟨b, hb⟩⟩ := reachable_good h
  obtain rfl : i' = i := Option.some.inj (hi'.symm.trans hi)
  refine ⟨?_, Nat.ne_of_gt hlt, ?_, ?_, ?_, ?_⟩ <;>
    simp [reset_conversation, initialize_session_state, hmn, hb]

/-- Witness for C6 (amended) at the freshly initialised state. -/
theorem reset_state_witness :
    (reset_conversation startState startEnv).1.session_id =
      some startEnv.next_id ∧
    startEnv.next_id ≠ 0 ∧
    (reset_conversation startState startEnv).1.history = some [] ∧
    (reset_conversation startState startEnv).1.messages =
      some [systemContent] ∧
    (reset_conversation startState startEnv).1.model_name =
      startState.model_name ∧
    (reset_conversation startState startEnv).1.log_to_csv =
      startState.log_to_csv :=
  reset_state startState startEnv (Reachable.start ⟨0⟩) 0 rfl

/-! ## C9: the transcript record count and the logging toggle -/

/-- C9 counterexample: with the logging toggle off, a model turn is still
recorded — after one submission on the fresh state (whose toggle is
`false`), the transcript holds a user AND a model record, where the claim
predicts only the user record. The toggle only controls a toast. -/
theorem logging_toggle_cex :
    (handle_chat_input (some "key") mockOkService "배송이 늦어요" 0 1
        startState).log_to_csv = some false ∧
    ((handle_chat_input (some "key") mockOkService "배송이 늦어요" 0 1
        startState).history.getD []).map HistEntry.role = ["user", "model"] := by
  constructor <;> rfl

/-- C9 (amended): the transcript record count equals the number of turns
processed, where each submission always logs the user turn and logs the
model turn exactly when the response text is non-empty — independently of
the logging toggle, which only controls a notification: submitting with
the toggle forced to any value changes nothing but the toggle itself. -/
theorem transcript_record_count (apiKey : Option String)
    (service : Nat → APIResult) (prompt : String) (t1 t2 : Nat)
    (s : SessionState) (b : Bool) :
    ((handle_chat_input apiKey service prompt t1 t2 s).history.getD []).length =
      (s.history.getD []).length + 1 +
        (if (send (effective_service apiKey service)).response_text ≠ ""
         then 1 else 0) ∧
    handle_chat_input apiKey service prompt t1 t2 { s with log_to_csv := some b } =
      { handle_chat_input apiKey service prompt t1 t2 s with
          log_to_csv := some b } := by
  constructor
  · simp only [handle_chat_input, Option.getD_some]
    split <;> simp
  · rfl

/-! ## C10: the two stored lists mirror each other -/

/-- The mirror property of C10 at state `s` for one submission: `messages`
minus its leading instruction entry corresponds one-to-one, in order, role
and text, to `history`; the submission appends exactly one user entry to
both lists and one model entry to both exactly when the response text is
non-empty. -/
def MirrorSpec (s : SessionState) (apiKey : Option String)
    (service : Nat → APIResult) (prompt : String) (t1 t2 : Nat) : Prop :=
  (∃ hist, s.history = some hist ∧
    s.messages = some (systemContent :: hist.map toContent)) ∧
  (∃ hist, s.history = some hist ∧
    (handle_chat_input apiKey service prompt t1 t2 s).history =
      some (hist ++ ⟨t1, "user", prompt⟩ ::
        (if (send (effective_service apiKey service)).response_text ≠ ""
         then [⟨t2, "model", (send (effective_service apiKey service)).response_text⟩]
         else [])) ∧
    (handle_chat_input apiKey service prompt t1 t2 s).messages =
      some ((systemContent :: hist.map toContent) ++ ⟨"user", prompt⟩ ::
        (if (send (effective_service apiKey service)).response_text ≠ ""
         then [⟨"model", (send (effective_service apiKey service)).response_text⟩]
         else [])))

/-- C10: every reachable state satisfies the mirror property — after
initialisation, submissions, replies and resets, the API message list
minus its leading instruction entry matches the transcript history
one-to-one in order, role and text, user entries are appended pairwise,
and a model entry is appended to both lists iff the response text is
non-empty. -/
theorem history_messages_mirror (s : SessionState) (env : Env)
    (h : Reachable s env) (apiKey : Option String)
    (service : Nat → APIResult) (prompt : String) (t1 t2 : Nat) :
    MirrorSpec s apiKey service prompt t1 t2 := by
  obtain ⟨⟨hist, hh, hm⟩, _⟩ := reachable_good h
  refine ⟨⟨hist, hh, hm⟩, ⟨hist, hh, ?_, ?_⟩⟩ <;>
    · simp only [handle_chat_input, hh, hm, Option.getD_some]
      split <;> simp [toContent]

/-- Witness for C10 at the freshly initialised state with a concrete
submission. -/
theorem history_messages_mirror_witness :
    MirrorSpec startState (some "key") mockOkService "환불해 주세요" 0 1 :=
  history_messages_mirror startState startEnv (Reachable.start ⟨0⟩)
    (some "key") mockOkService "환불해 주세요" 0 1

/-! ## C8: the CSV round trip -/

/-- Unfolding: the quoted-body reader keeps an ordinary character and
continues. -/
theorem parseQuoted_cons_ne (c : Char) (cs : List Char) (hc : c ≠ '"') :
    parseQuoted (c :: cs) = (parseQuoted cs).map fun fr => (c :: fr.1, fr.2) := by
  rw [parseQuoted.eq_def]
  simp [hc]

/-- Reading a quoted body: the escaped field followed by the closing quote
and anything not starting with another quote parses back to the field. -/
theorem parseQuoted_escape (s : List Char) :
    ∀ rest : List Char, rest.head? ≠ some '"' →
      parseQuoted (escapeQuotes s ++ '"' :: rest) = some (s, rest) := by
  induction s with
  | nil =>
    intro rest h
    match rest with
    | [] => rfl
    | c :: r =>
      have hc : c ≠ '"' := by
        intro hc
        exact h (by rw [hc]; rfl)
      simp [escapeQuotes, parseQuoted, hc]
  | cons c s ih =>
    intro rest h
    by_cases hc : c = '"'
    · subst hc
      simp [escapeQuotes, parseQuoted, ih rest h]
    · have hE : escapeQuotes (c :: s) = c :: escapeQuotes s := by
        simp [escapeQuotes, hc]
      rw [hE, List.cons_append, parseQuoted_cons_ne c _ hc, ih rest h]
      rfl

/-- Reading an unquoted field: a field without delimiter or terminator
characters followed by a delimiter, a terminator or nothing parses back to
the field. -/
theorem parseUnquoted_boundary (s : List Char)
    (hs : ∀ c ∈ s, ¬(c = ',' ∨ c = '\r')) :
    ∀ rest : List Char,
      rest = [] ∨ (∃ c r, rest = c :: r ∧ (c = ',' ∨ c = '\r')) →
      parseUnquoted (s ++ rest) = (s, rest) := by
  induction s with
  | nil =>
    intro rest h
    rcases h with rfl | ⟨c, r, rfl, hc⟩
    · rfl
    · simp only [List.nil_append, parseUnquoted]
      rw [if_pos hc]
  | cons a s ih =>
    intro rest h
    have ha : ¬(a = ',' ∨ a = '\r') := hs a (List.mem_cons_self a s)
    simp only [List.cons_append, parseUnquoted]
    rw [if_neg ha]
    simp only [List.append_eq]
    rw [ih (fun c hc => hs c (List.mem_cons_of_mem a hc)) rest h]

/-- Reading one rendered field at a field boundary gives the field back,
whatever it contains. -/
theorem parseField_render (f : List Char) (rest : List Char)
    (h : rest = [] ∨ (∃ c r, rest = c :: r ∧ (c = ',' ∨ c = '\r'))) :
    parseField (renderField f ++ rest) = some (f, rest) := by
  rw [renderField]
  split
  · -- quoted: the field holds a special character
    have hhead : rest.head? ≠ some '"' := by
      rcases h with rfl | ⟨c, r, rfl, hc⟩
      · simp
      · rcases hc with rfl | rfl <;> simp
    have harr : ('"' :: (escapeQuotes f ++ ['"'])) ++ rest =
        '"' :: (escapeQuotes f ++ '"' :: rest) := by simp
    rw [harr]
    have hpf : parseField ('"' :: (escapeQuotes f ++ '"' :: rest)) =
        parseQuoted (escapeQuotes f ++ '"' :: rest) := by
      simp [parseField]
    rw [hpf]
    exact parseQuoted_escape f rest hhead
  · -- unquoted: no special character in the field
    rename_i hq
    have hchars : ∀ c ∈ f, ¬(c = ',' ∨ c = '"' ∨ c = '\r' ∨ c = '\n') := by
      intro c hc hbad
      apply hq
      rw [needsQuote, List.any_eq_true]
      refine ⟨c, hc, ?_⟩
      rcases hbad with rfl | rfl | rfl | rfl <;> simp
    match f, hchars with
    | [], _ =>
      rcases h with rfl | ⟨c, r, rfl, hc⟩
      · rfl
      · have hcq : c ≠ '"' := by
          rcases hc with rfl | rfl <;> decide
        simp only [List.nil_append, parseField]
        rw [if_neg hcq]
        simp only [parseUnquoted]
        rw [if_pos hc]
    | a :: f', hch =>
      have ha := hch a (List.mem_cons_self a f')
      have haq : a ≠ '"' := fun hq2 => ha (Or.inr (Or.inl hq2))
      simp only [List.cons_append, parseField]
      rw [if_neg haq]
      have := parseUnquoted_boundary (a :: f')
        (fun c hc => fun hbad => hch c hc
          (hbad.elim (fun h1 => Or.inl h1) (fun h1 => Or.inr (Or.inr (Or.inl h1)))))
        rest h
      rw [List.cons_append] at this
      rw [this]

/-- One row-reader step when the field ends at a delimiter: the field is
kept and reading continues after the delimiter. -/
theorem parseRowAux_step_comma (fuel : Nat) (cs f r)
    (h : parseField cs = some (f, ',' :: r)) :
    parseRowAux (fuel + 1) cs =
      match parseRowAux fuel r with
      | some (fs, r') => some (f :: fs, r')
      | none => none := by
  rw [parseRowAux, h]
  rfl

/-- One row-reader step when the field ends at the row terminator: the row
closes with this last field. -/
theorem parseRowAux_step_done (fuel : Nat) (cs f r)
    (h : parseField cs = some (f, '\r' :: '\n' :: r)) :
    parseRowAux (fuel + 1) cs = some ([f], r) := by
  rw [parseRowAux, h]
  rfl

/-- Reading one rendered row up to its terminator gives the fields back. -/
theorem parseRowAux_render (fs : List (List Char)) :
    ∀ (f : List Char) (rest : List Char) (fuel : Nat), fs.length < fuel →
      parseRowAux fuel (renderRow (f :: fs) ++ '\r' :: '\n' :: rest) =
        some (f :: fs, rest) := by
  induction fs with
  | nil =>
    intro f rest fuel hfuel
    obtain ⟨fu, rfl⟩ : ∃ fu, fuel = fu + 1 := ⟨fuel - 1, by omega⟩
    have hpf := parseField_render f ('\r' :: '\n' :: rest)
      (Or.inr ⟨'\r', '\n' :: rest, rfl, Or.inr rfl⟩)
    have hrr : renderRow [f] = renderField f := rfl
    rw [hrr]
    exact parseRowAux_step_done fu _ f rest hpf
  | cons f1 fs ih =>
    intro f rest fuel hfuel
    obtain ⟨fu, rfl⟩ : ∃ fu, fuel = fu + 1 := ⟨fuel - 1, by omega⟩
    have h1 : renderRow (f :: f1 :: fs) ++ '\r' :: '\n' :: rest =
        renderField f ++ ',' :: (renderRow (f1 :: fs) ++ '\r' :: '\n' :: rest) := by
      simp [renderRow]
    have hpf := parseField_render f
      (',' :: (renderRow (f1 :: fs) ++ '\r' :: '\n' :: rest))
      (Or.inr ⟨',', _, rfl, Or.inl rfl⟩)
    have hlen : fs.length < fu := by
      simp only [List.length_cons] at hfuel
      omega
    rw [h1, parseRowAux_step_comma fu _ f _ hpf, ih f1 rest fu hlen]

/-- The field count of a row is below the length of its rendering plus
one: every extra field brings at least a delimiter. -/
theorem renderRow_length (fs : List (List Char)) :
    ∀ f : List Char, fs.length < (renderRow (f :: fs)).length + 1 := by
  induction fs with
  | nil =>
    intro f
    simp
  | cons f1 fs ih =>
    intro f
    have h1 : renderRow (f :: f1 :: fs) =
        renderField f ++ ',' :: renderRow (f1 :: fs) := by
      simp [renderRow]
    have h2 := ih f1
    rw [h1, List.length_cons, List.length_append, List.length_cons]
    omega

/-- A table's rendering is at least as long as its row count: every row
brings its two terminator characters. -/
theorem renderTable_length (rows : List (List (List Char))) :
    rows.length ≤ (renderTable rows).length := by
  induction rows with
  | nil => simp [renderTable]
  | cons row rows ih =>
    have h1 : renderTable (row :: rows) =
        (renderRow row ++ ['\r', '\n']) ++ renderTable rows := by
      simp [renderTable]
    rw [h1, List.length_cons, List.length_append, List.length_append]
    simp only [List.length_cons, List.length_nil]
    omega

/-- One unfolding step of the table reader on a non-empty input. -/
theorem parseTableAux_cons_eq (fuel : Nat) (c : Char) (cs : List Char) :
    parseTableAux (fuel + 1) (c :: cs) =
      match parseRowAux (c :: cs).length (c :: cs) with
      | some (row, rest) =>
        match parseTableAux fuel rest with
        | some rows => some (row :: rows)
        | none => none
      | none => none := rfl

/-- Reading a rendered table gives the rows back, for any table of
non-empty rows and any sufficient fuel. -/
theorem parseTableAux_render (rows : List (List (List Char)))
    (hrows : ∀ r ∈ rows, r ≠ []) :
    ∀ fuel : Nat, rows.length ≤ fuel →
      parseTableAux fuel (renderTable rows) = some rows := by
  induction rows with
  | nil =>
    intro fuel _
    match fuel with
    | 0 => rfl
    | fuel + 1 => rfl
  | cons row rows ih =>
    intro fuel hfuel
    simp only [List.length_cons] at hfuel
    obtain ⟨fu, rfl⟩ : ∃ fu, fuel = fu + 1 := ⟨fuel - 1, by omega⟩
    obtain ⟨f, fs, rfl⟩ : ∃ f fs, row = f :: fs := by
      match row, hrows row (List.mem_cons_self _ _) with
      | f :: fs, _ => exact ⟨f, fs, rfl⟩
    have hT : renderTable ((f :: fs) :: rows) =
        renderRow (f :: fs) ++ '\r' :: '\n' :: renderTable rows := by
      simp [renderTable]
    obtain ⟨c, cs, hcons⟩ : ∃ c cs,
        renderRow (f :: fs) ++ '\r' :: '\n' :: renderTable rows = c :: cs := by
      cases h : renderRow (f :: fs) with
      | nil => exact ⟨'\r', '\n' :: renderTable rows, by simp [h]⟩
      | cons a l => exact ⟨a, l ++ '\r' :: '\n' :: renderTable rows, by simp [h]⟩
    rw [hT, hcons, parseTableAux_cons_eq, ← hcons]
    have hrow : parseRowAux
        (renderRow (f :: fs) ++ '\r' :: '\n' :: renderTable rows).length
        (renderRow (f :: fs) ++ '\r' :: '\n' :: renderTable rows) =
        some (f :: fs, renderTable rows) := by
      apply parseRowAux_render
      have := renderRow_length fs f
      simp only [List.length_append, List.length_cons]
      omega
    have htail : parseTableAux fu (renderTable rows) = some rows := by
      apply ih (fun r hr => hrows r (List.mem_cons_of_mem _ hr))
      omega
    simp only [hrow, htail]

/-- Reading a rendered table of non-empty rows gives the rows back. -/
theorem parseTable_render (rows : List (List (List Char)))
    (hrows : ∀ r ∈ rows, r ≠ []) :
    parseTable (renderTable rows) = some rows :=
  parseTableAux_render rows hrows _ (renderTable_length rows)

/-- Decoding the data rows rebuilds the exported tuples. -/
theorem mapM_rowTuple (session_id : String) (history : List HistEntry) :
    (history.map (entryFields session_id)).mapM rowTuple =
      some (history.map fun e =>
        (session_id, toString e.timestamp, e.role, e.text)) := by
  induction history with
  | nil => rfl
  | cons e hs ih =>
    simp only [List.map_cons, List.mapM_cons, ih, entryFields, rowTuple]
    rfl

/-- C8: the round trip. Decoding the exported delimited record (fixed
column order session id, timestamp, role, text; `QUOTE_MINIMAL`
quote-on-demand escaping) reconstructs exactly the ordered list of
{session, timestamp, role, text} tuples of the transcript — for every
session id and every transcript, in particular one whose text holds an
embedded newline, carriage return, delimiter or quote character. -/
theorem csv_round_trip (session_id : String) (history : List HistEntry) :
    decodeTranscript (convert_history_to_csv session_id history) =
      some (history.map fun e =>
        (session_id, toString e.timestamp, e.role, e.text)) := by
  rw [decodeTranscript, convert_history_to_csv]
  have hrows : ∀ r ∈ headerFields :: history.map (entryFields session_id),
      r ≠ [] := by
    intro r hr
    rcases List.mem_cons.mp hr with rfl | hr
    · intro h
      exact absurd h (by rw [headerFields]; simp)
    · obtain ⟨e, _, rfl⟩ := List.mem_map.mp hr
      intro h
      exact absurd h (by rw [entryFields]; simp)
  rw [parseTable_render _ hrows]
  exact mapM_rowTuple session_id history

end InfoPage
